import Mathlib

/-!
Verification of the Quote Wall application (`src/index.js`).

The application is an Express web app with session-backed authentication,
three role gates (`requireLogin`, `requireEditorOrAdmin`, `requireAdmin`),
quote composition/parsing (parallel name/utterance arrays joined into a single
newline-separated body and split back for search and editing), a like toggle
and a sorted feed with like counts.

JavaScript strings are modelled as lists of characters (`Str`); the relational
tables are modelled as lists of row structures; the external bcrypt collaborator
is modelled abstractly per the spec.  Every operation is translated directly
from the corresponding route handler in `src/index.js`.
-/

/-- JavaScript strings modelled as lists of characters. -/
abbrev Str := List Char

/-- Model of `String.prototype.trim`: strip leading and trailing whitespace. -/
def jsTrim (s : Str) : Str :=
  ((s.dropWhile Char.isWhitespace).reverse.dropWhile Char.isWhitespace).reverse

/-- Model of `String.prototype.split` with a one-character separator.
Splitting never yields the empty list and splitting the empty string
yields `[[]]`, exactly as in JavaScript. -/
def jsSplit (c : Char) : Str → List Str
  | [] => [[]]
  | x :: xs =>
    if x = c then [] :: jsSplit c xs
    else
      match jsSplit c xs with
      | [] => [[x]]
      | y :: ys => (x :: y) :: ys

/-- Model of `String.prototype.toLowerCase` (ASCII case mapping). -/
def jsToLower (s : Str) : Str := s.map Char.toLower

/-- Model of `Array.prototype.join(sep)`: the empty array joins to the empty
string, a singleton to its element, and otherwise the separator goes between
consecutive elements. -/
def joinSep (sep : Str) : List Str → Str
  | [] => []
  | [x] => x
  | x :: y :: t => x ++ sep ++ joinSep sep (y :: t)

/-- Model of `String.prototype.includes`: the needle occurs contiguously in the
haystack. -/
def jsIncludes (hay needle : Str) : Bool := decide (needle <:+: hay)

/-- Body construction shared by `POST /add` and `POST /edit/:id`:
`names.map((name, i) => name.trim() + ": " + quotes[i].trim()).join("\n")`.
The map indexes `quotes[i]`; when `quotes` is shorter than `names` the handler
throws (`.trim()` of `undefined`), modelled as `none`. -/
def compose (names quotes : List Str) : Option Str :=
  if names.length ≤ quotes.length then
    some (joinSep ['\n']
      (List.zipWith (fun n u => jsTrim n ++ ':' :: ' ' :: jsTrim u) names quotes))
  else none

/-- One line record built by `GET /edit/:id`: the text before the first colon is
the name, everything after it (colons rejoined) is the text, both trimmed. -/
structure LineRec where
  name : Str
  text : Str
  deriving DecidableEq, Repr

/-- Per-line parsing in `GET /edit/:id`:
`parts = line.split(":"); name = parts[0].trim(); text = parts.slice(1).join(":").trim()`. -/
def parseLine (line : Str) : LineRec :=
  let parts := jsSplit ':' line
  { name := jsTrim (parts.headD [])
    text := jsTrim (joinSep [':'] parts.tail) }

/-- Body parsing in `GET /edit/:id`: split the stored body on newlines and parse
each line. -/
def parse (body : Str) : List LineRec :=
  (jsSplit '\n' body).map parseLine

/-- The `POST /edit/:id` round trip: the edit form submits the parsed records
back as parallel `names`/`quotes` arrays, which the handler re-composes. -/
def recompose (recs : List LineRec) : Option Str :=
  compose (recs.map LineRec.name) (recs.map LineRec.text)

/-- Per-line speaker test inside the `GET /` search filter: split the line on
colons; only when there is more than one part is the first part a speaker, and
then the trimmed, lowercased speaker must contain the prepared search string. -/
def lineSpeakerMatches (trimmedSearch : Str) (line : Str) : Bool :=
  let parts := jsSplit ':' line
  if parts.length > 1 then
    jsIncludes (jsToLower (jsTrim (parts.headD []))) trimmedSearch
  else false

/-- Whether a quote body survives the `GET /` speaker search for `query`:
the filter is applied only when `searchName` is truthy (non-empty), with
`trimmedSearch = searchName.trim().toLowerCase()`, and keeps the quote when
some line of the body matches. -/
def matchesSpeaker (body query : Str) : Bool :=
  if query = [] then true
  else (jsSplit '\n' body).any (lineSpeakerMatches (jsToLower (jsTrim query)))

/-- The spec's reading of the speaker search: the trimmed query occurs,
case-insensitively, inside the speaker name (the text before the first colon,
trimmed) of some line of the body that contains a colon; the empty query always
matches. -/
def specSpeakerMatch (body query : Str) : Prop :=
  query = [] ∨
    ∃ line ∈ jsSplit '\n' body, ':' ∈ line ∧
      jsToLower (jsTrim query) <:+:
        jsToLower (jsTrim (line.takeWhile (fun a => a ≠ ':')))

/-- The claim's literal reading of the speaker search, with the raw (untrimmed)
query: the query occurs, case-insensitively, inside the speaker name of some
line of the body that contains a colon. -/
def claimSpeakerMatch (body query : Str) : Prop :=
  ∃ line ∈ jsSplit '\n' body, ':' ∈ line ∧
    jsToLower query <:+:
      jsToLower (jsTrim (line.takeWhile (fun a => a ≠ ':')))

instance (body query : Str) : Decidable (specSpeakerMatch body query) := by
  unfold specSpeakerMatch; infer_instance

instance (body query : Str) : Decidable (claimSpeakerMatch body query) := by
  unfold claimSpeakerMatch; infer_instance

/-- The session payload established at login: `{ id, username, role }`. -/
structure SessionUser where
  id : Nat
  username : String
  role : String
  deriving DecidableEq, Repr

/-- Observable outcome of an authorization gate. -/
inductive GateResult where
  | allow
  | redirectLogin
  | forbidden
  deriving DecidableEq, Repr

/-- Gate `requireLogin`: `if (!req.session.user) return res.redirect("/login"); next()`. -/
def requireLogin (sess : Option SessionUser) : GateResult :=
  match sess with
  | none => .redirectLogin
  | some _ => .allow

/-- Gate `requireAdmin`: 403 unless the session user exists and has role `admin`. -/
def requireAdmin (sess : Option SessionUser) : GateResult :=
  match sess with
  | none => .forbidden
  | some u => if u.role ≠ "admin" then .forbidden else .allow

/-- Gate `requireEditorOrAdmin`: 403 unless the session user exists and has role
`admin` or `editor`. -/
def requireEditorOrAdmin (sess : Option SessionUser) : GateResult :=
  match sess with
  | none => .forbidden
  | some u => if u.role ≠ "admin" ∧ u.role ≠ "editor" then .forbidden else .allow

/-- A row of the `users` table; `password` holds the bcrypt hash. -/
structure UserRow where
  id : Nat
  username : String
  email : String
  password : String
  role : String
  deriving DecidableEq, Repr

/-- Modelled from the spec: bcrypt is an external collaborator treated as an
opaque one-way hash capability; `bcrypt.hash` is modelled as an injective
tagging of the password. -/
def bcryptHash (password : String) : String := "bcrypt$" ++ password

/-- Modelled from the spec: `bcrypt.compare(password, hash)` succeeds exactly
when `hash` is the stored hash of `password`. -/
def bcryptCompare (password hash : String) : Bool := hash = bcryptHash password

/-- Observable outcome of `POST /login`. -/
inductive LoginResult where
  | invalidCredentials
  | success (sess : SessionUser)
  deriving DecidableEq, Repr

/-- Route `POST /login`: look up the first user row with the given email
(`db("users").where({ email }).first()`); answer `Invalid credentials` when the
lookup or the hash comparison fails; otherwise store `{ id, username, role }`
in the session. -/
def login (users : List UserRow) (email password : String) : LoginResult :=
  match users.find? (fun u => u.email == email) with
  | none => .invalidCredentials
  | some u =>
    if bcryptCompare password u.password then .success ⟨u.id, u.username, u.role⟩
    else .invalidCredentials

/-- The user-visible message of a login outcome (`res.send("Invalid credentials")`
on failure; a redirect carrying no message on success). -/
def loginMessage : LoginResult → Option String
  | .invalidCredentials => some "Invalid credentials"
  | .success _ => none

/-- The session (if any) established by a login outcome. -/
def sessionOf : LoginResult → Option SessionUser
  | .invalidCredentials => none
  | .success s => some s

/-- Observable outcome of `POST /register`. -/
inductive RegisterResult where
  | duplicateEmail
  | registered
  deriving DecidableEq, Repr

/-- Route `POST /register`: answer `Email already exists` when a row with the email is
found; otherwise insert a new row with the hashed password and role `user`
(`newId` models the auto-increment id assigned by the store). -/
def register (users : List UserRow) (newId : Nat) (username email password : String) :
    RegisterResult × List UserRow :=
  if (users.find? (fun u => u.email == email)).isSome then (.duplicateEmail, users)
  else (.registered, users ++ [⟨newId, username, email, bcryptHash password, "user"⟩])

/-- Observable outcome of `POST /users/:id/delete`. -/
inductive DeleteUserResult where
  | selfDeletion
  | deleted
  deriving DecidableEq, Repr

/-- Route `POST /users/:id/delete`: HTTP 400 (`You cannot delete your own account`)
when the target id equals the acting user's id; otherwise delete every row with
that id unconditionally. -/
def deleteUser (users : List UserRow) (userId actingUserId : Nat) :
    DeleteUserResult × List UserRow :=
  if userId = actingUserId then (.selfDeletion, users)
  else (.deleted, users.filter (fun u => u.id != userId))

/-- A row of the `likes` table (the surrogate id and timestamp are irrelevant
to the claims; the store enforces uniqueness of the pair). -/
structure Like where
  user_id : Nat
  quote_id : Nat
  deriving DecidableEq, Repr

/-- Route `POST /like/:id`: find the first like row for the (user, quote) pair; delete
that row when present, insert the pair otherwise. -/
def toggleLike (likes : List Like) (userId quoteId : Nat) : List Like :=
  match likes.find? (fun l => l.user_id == userId && l.quote_id == quoteId) with
  | some existing => likes.erase existing
  | none => likes ++ [⟨userId, quoteId⟩]

/-- Iterated toggling: `n` sequential invocations of the like toggle for one (user, quote) pair. -/
def toggleLikeN (userId quoteId : Nat) (likes : List Like) : Nat → List Like
  | 0 => likes
  | n + 1 => toggleLike (toggleLikeN userId quoteId likes n) userId quoteId

/-- A row of the `quotes` table. -/
structure QuoteRow where
  id : Nat
  quote : Str
  created_at : Nat
  deriving DecidableEq, Repr

/-- A feed entry: a quote row together with its computed like count. -/
structure QuoteView where
  row : QuoteRow
  like_count : Nat
  deriving DecidableEq, Repr

/-- Aggregate `COUNT(likes.id)` grouped by quote: the number of like rows for a quote id
(zero when the left join finds none). -/
def likeCount (likes : List Like) (quoteId : Nat) : Nat :=
  (likes.filter (fun l => l.quote_id == quoteId)).length

/-- Ascending creation-time order. -/
def createdAsc (a b : QuoteRow) : Prop := a.created_at ≤ b.created_at

/-- Descending creation-time order. -/
def createdDesc (a b : QuoteRow) : Prop := b.created_at ≤ a.created_at

instance : DecidableRel createdAsc := fun a b => Nat.decLe a.created_at b.created_at

instance : DecidableRel createdDesc := fun a b => Nat.decLe b.created_at a.created_at

instance : IsTotal QuoteRow createdAsc := ⟨fun a b => Nat.le_total a.created_at b.created_at⟩

instance : IsTrans QuoteRow createdAsc := ⟨fun _ _ _ h h2 => Nat.le_trans h h2⟩

instance : IsTotal QuoteRow createdDesc := ⟨fun a b => Nat.le_total b.created_at a.created_at⟩

instance : IsTrans QuoteRow createdDesc := ⟨fun _ _ _ h h2 => Nat.le_trans h2 h⟩

/-- The `GET /` feed query: all quote rows joined with their like counts,
ordered by `created_at` ascending when `sort` is `oldest` and descending
otherwise (an absent `sort` defaults to `newest`).  SQL `ORDER BY` leaves the
order of equal keys unspecified; it is modelled by a sort on the requested
key. -/
def listQuotes (quotes : List QuoteRow) (likes : List Like) (sort : Option String) :
    List QuoteView :=
  let sortOrder := sort.getD "newest"
  let sorted :=
    if sortOrder = "oldest" then List.insertionSort createdAsc quotes
    else List.insertionSort createdDesc quotes
  sorted.map (fun q => ⟨q, likeCount likes q.id⟩)

/-- The persistent state touched by the quote/like routes. -/
structure Store where
  quotes : List QuoteRow
  likes : List Like
  deriving DecidableEq, Repr

/-- Route `POST /like/:id` at the store level: only the `likes` table is consulted or
changed; the quote id is never checked against the `quotes` table. -/
def likeRoute (s : Store) (userId quoteId : Nat) : Store :=
  { s with likes := toggleLike s.likes userId quoteId }

/-- Route `POST /delete/:id`: `db("quotes").where("id", req.params.id).del()` — only
the `quotes` table is touched. -/
def deleteQuoteRoute (s : Store) (quoteId : Nat) : Store :=
  { s with quotes := s.quotes.filter (fun q => q.id != quoteId) }

/-! ### Lemmas about the string model -/

theorem jsSplit_ne_nil (c : Char) (s : Str) : jsSplit c s ≠ [] := by
  induction s with
  | nil => simp [jsSplit]
  | cons x xs ih =>
    simp only [jsSplit]
    split
    · simp
    · split <;> simp

theorem jsSplit_not_mem {c : Char} {s : Str} (h : c ∉ s) : jsSplit c s = [s] := by
  induction s with
  | nil => rfl
  | cons x xs ih =>
    have hx : ¬x = c := fun hxc => h (hxc ▸ List.mem_cons_self x xs)
    have hxs : c ∉ xs := fun hm => h (List.mem_cons_of_mem _ hm)
    simp only [jsSplit, if_neg hx, ih hxs]

theorem jsSplit_append_cons {c : Char} {l : Str} (h : c ∉ l) (r : Str) :
    jsSplit c (l ++ c :: r) = l :: jsSplit c r := by
  induction l with
  | nil => simp [jsSplit]
  | cons x xs ih =>
    have hx : ¬x = c := fun hxc => h (hxc ▸ List.mem_cons_self x xs)
    have hxs : c ∉ xs := fun hm => h (List.mem_cons_of_mem _ hm)
    simp only [List.cons_append, jsSplit, if_neg hx, List.append_eq, ih hxs]

theorem joinSep_jsSplit (c : Char) (s : Str) : joinSep [c] (jsSplit c s) = s := by
  induction s with
  | nil => rfl
  | cons x xs ih =>
    obtain ⟨y, ys, hy⟩ : ∃ y ys, jsSplit c xs = y :: ys := by
      cases h : jsSplit c xs with
      | nil => exact absurd h (jsSplit_ne_nil c xs)
      | cons y ys => exact ⟨y, ys, rfl⟩
    rw [hy] at ih
    by_cases hx : x = c
    · subst hx
      simp only [jsSplit, if_pos rfl, hy, joinSep]
      simpa using ih
    · simp only [jsSplit, if_neg hx, hy]
      cases ys with
      | nil => simp only [joinSep] at ih ⊢; rw [ih]
      | cons z zs =>
        simp only [joinSep] at ih ⊢
        rw [List.cons_append, List.cons_append, ih]

theorem jsSplit_joinSep {c : Char} {L : List Str} (hne : L ≠ [])
    (h : ∀ l ∈ L, c ∉ l) : jsSplit c (joinSep [c] L) = L := by
  induction L with
  | nil => exact absurd rfl hne
  | cons l t ih =>
    cases t with
    | nil => exact jsSplit_not_mem (h l (List.mem_cons_self l []))
    | cons m t2 =>
      have hl : c ∉ l := h l (List.mem_cons_self _ _)
      have hrest : ∀ x ∈ m :: t2, c ∉ x := fun x hx => h x (List.mem_cons_of_mem _ hx)
      have hjoin : joinSep [c] (l :: m :: t2) = l ++ c :: joinSep [c] (m :: t2) := by
        simp [joinSep]
      rw [hjoin, jsSplit_append_cons hl, ih (by simp) hrest]

theorem jsSplit_headD (c : Char) (s : Str) :
    (jsSplit c s).headD [] = s.takeWhile (fun a => a ≠ c) := by
  induction s with
  | nil => rfl
  | cons x xs ih =>
    by_cases hx : x = c
    · subst hx
      simp [jsSplit, List.takeWhile_cons]
    · obtain ⟨y, ys, hy⟩ : ∃ y ys, jsSplit c xs = y :: ys := by
        cases h : jsSplit c xs with
        | nil => exact absurd h (jsSplit_ne_nil c xs)
        | cons y ys => exact ⟨y, ys, rfl⟩
      rw [hy] at ih
      simp only [jsSplit, if_neg hx, hy, List.takeWhile_cons, List.headD_cons] at ih ⊢
      simp [hx, ih]

theorem one_lt_jsSplit_length (c : Char) (s : Str) :
    1 < (jsSplit c s).length ↔ c ∈ s := by
  induction s with
  | nil => simp [jsSplit]
  | cons x xs ih =>
    obtain ⟨y, ys, hy⟩ : ∃ y ys, jsSplit c xs = y :: ys := by
      cases h : jsSplit c xs with
      | nil => exact absurd h (jsSplit_ne_nil c xs)
      | cons y ys => exact ⟨y, ys, rfl⟩
    rw [hy] at ih
    by_cases hx : x = c
    · subst hx
      simp [jsSplit, hy]
    · simp only [jsSplit, if_neg hx, hy]
      simp only [List.length_cons, List.mem_cons] at ih ⊢
      constructor
      · intro hlen
        exact Or.inr (ih.mp hlen)
      · intro hmem
        rcases hmem with hmem | hmem
        · exact absurd hmem.symm hx
        · exact ih.mpr hmem

theorem head?_dropWhile_false {α : Type} (p : α → Bool) (l : List α) :
    ∀ a, (l.dropWhile p).head? = some a → p a = false := by
  induction l with
  | nil => simp
  | cons x xs ih =>
    intro a h
    cases hpx : p x with
    | true => rw [List.dropWhile_cons_of_pos hpx] at h; exact ih a h
    | false =>
      rw [List.dropWhile_cons_of_neg (by simp [hpx])] at h
      simp only [List.head?_cons, Option.some.injEq] at h
      rw [← h]; exact hpx

theorem dropWhile_eq_self_of_head {α : Type} (p : α → Bool) (l : List α)
    (h : ∀ a, l.head? = some a → p a = false) : l.dropWhile p = l := by
  cases l with
  | nil => rfl
  | cons x xs =>
    have := h x rfl
    simp [List.dropWhile_cons, this]

theorem jsTrim_idem (s : Str) : jsTrim (jsTrim s) = jsTrim s := by
  unfold jsTrim
  set ws := Char.isWhitespace with hws
  set r := s.dropWhile ws with hr
  set t := r.reverse.dropWhile ws with ht
  have hhead_t : ∀ a, t.head? = some a → ws a = false :=
    head?_dropWhile_false ws r.reverse
  have hhead_r : ∀ a, r.head? = some a → ws a = false :=
    head?_dropWhile_false ws s
  have hdec : r = t.reverse ++ (r.reverse.takeWhile ws).reverse := by
    have h1 : r.reverse.takeWhile ws ++ t = r.reverse :=
      List.takeWhile_append_dropWhile ws r.reverse
    calc r = r.reverse.reverse := (List.reverse_reverse r).symm
    _ = (r.reverse.takeWhile ws ++ t).reverse := by rw [h1]
    _ = t.reverse ++ (r.reverse.takeWhile ws).reverse := List.reverse_append ..
  have hstepA : t.reverse.dropWhile ws = t.reverse := by
    apply dropWhile_eq_self_of_head
    intro a ha
    apply hhead_r
    rw [hdec]
    cases htv : t.reverse with
    | nil => rw [htv] at ha; simp at ha
    | cons b l2 =>
      rw [htv] at ha
      simp only [List.head?_cons, Option.some.injEq] at ha
      simp [htv, ha]
  have hstepC : t.dropWhile ws = t :=
    dropWhile_eq_self_of_head ws t hhead_t
  rw [hstepA, List.reverse_reverse, hstepC]

theorem jsTrim_cons_ws {a : Char} (ha : a.isWhitespace = true) (s : Str) :
    jsTrim (a :: s) = jsTrim s := by
  unfold jsTrim
  rw [List.dropWhile_cons_of_pos ha]

theorem jsTrim_nil : jsTrim [] = [] := rfl

/-! ### Lemmas about the composer and parser -/

theorem parseLine_canonical {n u : Str} (hn : jsTrim n = n) (hcn : ':' ∉ n)
    (hu : jsTrim u = u) : parseLine (n ++ ':' :: ' ' :: u) = ⟨n, u⟩ := by
  have hsplit : jsSplit ':' (n ++ ':' :: (' ' :: u)) = n :: jsSplit ':' (' ' :: u) :=
    jsSplit_append_cons hcn (' ' :: u)
  simp only [parseLine, hsplit, List.headD_cons, List.tail_cons, joinSep_jsSplit]
  rw [jsTrim_cons_ws (by decide) u, hn, hu]

theorem parseLine_colonless {line : Str} (hc : ':' ∉ line) :
    parseLine line = ⟨jsTrim line, []⟩ := by
  simp only [parseLine, jsSplit_not_mem hc, List.headD_cons, List.tail_cons, joinSep,
    jsTrim_nil]

theorem parse_joinSep {L : List Str} (hne : L ≠ []) (h : ∀ l ∈ L, '\n' ∉ l) :
    parse (joinSep ['\n'] L) = L.map parseLine := by
  unfold parse
  rw [jsSplit_joinSep hne h]

theorem composeLines_parse (names utts : List Str)
    (hn : ∀ n ∈ names, jsTrim n = n ∧ ':' ∉ n ∧ '\n' ∉ n)
    (hu : ∀ u ∈ utts, jsTrim u = u ∧ '\n' ∉ u) :
    (∀ l ∈ List.zipWith (fun n u => jsTrim n ++ ':' :: ' ' :: jsTrim u) names utts,
        '\n' ∉ l) ∧
    (List.zipWith (fun n u => jsTrim n ++ ':' :: ' ' :: jsTrim u) names utts).map
        parseLine = List.zipWith LineRec.mk names utts := by
  induction names generalizing utts with
  | nil => simp
  | cons n ns ih =>
    cases utts with
    | nil => simp
    | cons u us =>
      obtain ⟨hn1, hn2, hn3⟩ := hn n (List.mem_cons_self n ns)
      obtain ⟨hu1, hu2⟩ := hu u (List.mem_cons_self u us)
      have hns := fun x hx => hn x (List.mem_cons_of_mem n hx)
      have hus := fun x hx => hu x (List.mem_cons_of_mem u hx)
      obtain ⟨ih1, ih2⟩ := ih us hns hus
      constructor
      · intro l hl
        rcases List.mem_cons.mp hl with hl | hl
        · subst hl
          simp only [hn1, hu1]
          intro hmem
          rcases List.mem_append.mp hmem with hmem | hmem
          · exact hn3 hmem
          · rcases List.mem_cons.mp hmem with hmem | hmem
            · exact absurd hmem (by decide)
            · rcases List.mem_cons.mp hmem with hmem | hmem
              · exact absurd hmem (by decide)
              · exact hu2 hmem
        · exact ih1 l hl
      · simp only [List.zipWith_cons_cons, List.map_cons, ih2]
        rw [hn1, hu1, parseLine_canonical hn1 hn2 hu1]

/-- C1: the concrete round trip on the Alice/Bob example, and the general
round trip of the composer and parser: for equal-length, non-empty arrays of
trimmed, colon-free, newline-free names and trimmed, colon-free, newline-free
utterances, composing succeeds and parsing the composed body recovers exactly
the original (speaker, text) pairs. -/
theorem C1_composeParse_roundTrip (names utts : List Str)
    (hlen : names.length = utts.length) (hne : names ≠ [])
    (hn : ∀ n ∈ names, jsTrim n = n ∧ ':' ∉ n ∧ '\n' ∉ n)
    (hu : ∀ u ∈ utts, jsTrim u = u ∧ ':' ∉ u ∧ '\n' ∉ u) :
    (compose ["Alice".data, "Bob".data] ["hi".data, "hey".data] =
        some ("Alice: hi\nBob: hey".data) ∧
      parse ("Alice: hi\nBob: hey".data) =
        [⟨"Alice".data, "hi".data⟩, ⟨"Bob".data, "hey".data⟩]) ∧
    ∃ body, compose names utts = some body ∧
      parse body = List.zipWith LineRec.mk names utts := by
  refine ⟨⟨by decide, by decide⟩, ?_⟩
  have hle : names.length ≤ utts.length := Nat.le_of_eq hlen
  have hu2 : ∀ u ∈ utts, jsTrim u = u ∧ '\n' ∉ u := fun u hmem =>
    ⟨(hu u hmem).1, (hu u hmem).2.2⟩
  obtain ⟨hlines, hmap⟩ := composeLines_parse names utts hn hu2
  have hznil : List.zipWith (fun n u => jsTrim n ++ ':' :: ' ' :: jsTrim u) names utts ≠ [] := by
    cases names with
    | nil => exact absurd rfl hne
    | cons n ns =>
      cases utts with
      | nil => simp at hlen
      | cons u us => simp
  refine ⟨_, by rw [compose, if_pos hle], ?_⟩
  rw [parse_joinSep hznil hlines, hmap]

/-- C1 counterexample: the round trip fails as originally stated, at three
concrete inputs each allowed by the original side conditions — a name
containing a colon, an utterance with surrounding whitespace, and empty
arrays. -/
theorem C1_claim_counterexample :
    ((∀ n ∈ ["a:b".data], jsTrim n = n ∧ '\n' ∉ n) ∧
      (∀ u ∈ ["hi".data], ':' ∉ u ∧ '\n' ∉ u) ∧
      (compose ["a:b".data] ["hi".data]).map parse ≠
        some [⟨"a:b".data, "hi".data⟩]) ∧
    ((∀ n ∈ ["A".data], jsTrim n = n ∧ '\n' ∉ n) ∧
      (∀ u ∈ [" hi ".data], ':' ∉ u ∧ '\n' ∉ u) ∧
      (compose ["A".data] [" hi ".data]).map parse ≠
        some [⟨"A".data, " hi ".data⟩]) ∧
    (compose ([] : List Str) ([] : List Str)).map parse ≠ some ([] : List LineRec) := by
  decide

/-- C2: a line with no colon never matches any speaker search query; the edit
parser represents it with the whole trimmed line as the name and empty text,
and re-composing the parsed records normalizes it to the trimmed line followed
by a colon and a space rather than restoring the original body. -/
theorem C2_colonlessLine (line query : Str) (hc : ':' ∉ line) (hn : '\n' ∉ line) :
    lineSpeakerMatches query line = false ∧
    (query ≠ [] → matchesSpeaker line query = false) ∧
    parse line = [⟨jsTrim line, []⟩] ∧
    recompose (parse line) = some (jsTrim line ++ [':', ' ']) := by
  have hmatch : ∀ q : Str, lineSpeakerMatches q line = false := by
    intro q
    simp [lineSpeakerMatches, jsSplit_not_mem hc]
  have hparse : parse line = [⟨jsTrim line, []⟩] := by
    unfold parse
    rw [jsSplit_not_mem hn, List.map_cons, List.map_nil, parseLine_colonless hc]
  refine ⟨hmatch query, ?_, hparse, ?_⟩
  · intro hq
    simp only [matchesSpeaker, if_neg hq, jsSplit_not_mem hn]
    simp [hmatch]
  · rw [hparse]
    simp only [recompose, List.map_cons, List.map_nil, compose, joinSep, jsTrim_nil,
      if_pos (Nat.le_refl 1), jsTrim_idem]
    simp

/-- C2 counterexample: the body consisting of the single colonless line `Bob`
does not round-trip through the edit flow — re-composing its parsed records
yields `Bob: `, not the original body. -/
theorem C2_claim_counterexample :
    ':' ∉ ("Bob".data) ∧ recompose (parse ("Bob".data)) ≠ some ("Bob".data) := by
  decide

/-- C2 witness: the general theorem applied to the line `Bob` and the query
`bob`. -/
theorem C2_witness :
    lineSpeakerMatches ("bob".data) ("Bob".data) = false ∧
    ("bob".data ≠ ([] : Str) → matchesSpeaker ("Bob".data) ("bob".data) = false) ∧
    parse ("Bob".data) = [⟨jsTrim ("Bob".data), []⟩] ∧
    recompose (parse ("Bob".data)) = some (jsTrim ("Bob".data) ++ [':', ' ']) :=
  C2_colonlessLine ("Bob".data) ("bob".data) (by decide) (by decide)

/-- C3: the three authorization gates partition access exactly by role —
`requireLogin` allows precisely the non-anonymous sessions and otherwise
redirects to login; `requireEditorOrAdmin` allows precisely role editor or
admin and otherwise answers 403; `requireAdmin` allows precisely role admin
and otherwise answers 403. -/
theorem C3_gates (sess : Option SessionUser) :
    (requireLogin sess = GateResult.allow ↔ sess ≠ none) ∧
    (requireLogin sess = GateResult.allow ∨
      requireLogin sess = GateResult.redirectLogin) ∧
    (requireEditorOrAdmin sess = GateResult.allow ↔
      ∃ u, sess = some u ∧ (u.role = "editor" ∨ u.role = "admin")) ∧
    (requireEditorOrAdmin sess = GateResult.allow ∨
      requireEditorOrAdmin sess = GateResult.forbidden) ∧
    (requireAdmin sess = GateResult.allow ↔
      ∃ u, sess = some u ∧ u.role = "admin") ∧
    (requireAdmin sess = GateResult.allow ∨
      requireAdmin sess = GateResult.forbidden) := by
  cases sess with
  | none => simp [requireLogin, requireAdmin, requireEditorOrAdmin]
  | some u =>
    by_cases ha : u.role = "admin" <;> by_cases he : u.role = "editor" <;>
      simp [requireLogin, requireAdmin, requireEditorOrAdmin, ha, he]

/-- C5: login with the correct password for an existing email establishes the
session `{id, username, role}` with the stored role; lookup failure and hash
mismatch both produce the single `Invalid credentials` response, any two
failing runs are observably identical, and a failing run establishes no
session. -/
theorem C5_login (users : List UserRow) (email password : String) :
    (∀ u, users.find? (fun v => v.email == email) = some u →
      bcryptCompare password u.password = true →
      login users email password = LoginResult.success ⟨u.id, u.username, u.role⟩) ∧
    (users.find? (fun v => v.email == email) = none →
      login users email password = LoginResult.invalidCredentials) ∧
    (∀ u, users.find? (fun v => v.email == email) = some u →
      bcryptCompare password u.password = false →
      login users email password = LoginResult.invalidCredentials) ∧
    (∀ (users2 : List UserRow) (email2 password2 : String),
      login users email password = LoginResult.invalidCredentials →
      login users2 email2 password2 = LoginResult.invalidCredentials →
      loginMessage (login users email password) =
          loginMessage (login users2 email2 password2) ∧
        sessionOf (login users email password) = none) := by
  refine ⟨?_, ?_, ?_, ?_⟩
  · intro u hfind hok
    simp [login, hfind, hok]
  · intro hfind
    simp [login, hfind]
  · intro u hfind hbad
    simp [login, hfind, hbad]
  · intro users2 email2 password2 h1 h2
    rw [h1, h2]
    exact ⟨rfl, rfl⟩

/-- C5 witness: with one stored editor account, the correct password logs in
with the stored role, while an unknown email and a wrong password for the
known email give identical `Invalid credentials` responses and no session. -/
theorem C5_witness :
    login [⟨1, "alice", "a@x", bcryptHash "pw", "editor"⟩] "a@x" "pw" =
      LoginResult.success ⟨1, "alice", "editor"⟩ ∧
    login [⟨1, "alice", "a@x", bcryptHash "pw", "editor"⟩] "b@x" "pw" =
      LoginResult.invalidCredentials ∧
    loginMessage (login [⟨1, "alice", "a@x", bcryptHash "pw", "editor"⟩] "b@x" "pw") =
      loginMessage (login [⟨1, "alice", "a@x", bcryptHash "pw", "editor"⟩] "a@x" "bad") ∧
    sessionOf (login [⟨1, "alice", "a@x", bcryptHash "pw", "editor"⟩] "b@x" "pw") =
      none := by
  have hgood := (C5_login [⟨1, "alice", "a@x", bcryptHash "pw", "editor"⟩] "a@x" "pw").1
    ⟨1, "alice", "a@x", bcryptHash "pw", "editor"⟩ (by rfl) (by rfl)
  have hunknown := (C5_login [⟨1, "alice", "a@x", bcryptHash "pw", "editor"⟩] "b@x" "pw").2.1
    (by rfl)
  have hwrong := (C5_login [⟨1, "alice", "a@x", bcryptHash "pw", "editor"⟩] "a@x" "bad").2.2.1
    ⟨1, "alice", "a@x", bcryptHash "pw", "editor"⟩ (by rfl) (by decide)
  have hind := (C5_login [⟨1, "alice", "a@x", bcryptHash "pw", "editor"⟩] "b@x" "pw").2.2.2
    [⟨1, "alice", "a@x", bcryptHash "pw", "editor"⟩] "a@x" "bad" hunknown hwrong
  exact ⟨hgood, hunknown, hind.1, hind.2⟩

/-- C6: an admin deleting their own account fails with SelfDeletion and the
user store is completely unchanged; deleting any other id succeeds
unconditionally and removes exactly the rows with that id. -/
theorem C6_deleteUser (users : List UserRow) (userId actingUserId : Nat) :
    (userId = actingUserId →
      deleteUser users userId actingUserId = (DeleteUserResult.selfDeletion, users)) ∧
    (userId ≠ actingUserId →
      (deleteUser users userId actingUserId).1 = DeleteUserResult.deleted ∧
      ∀ u, u ∈ (deleteUser users userId actingUserId).2 ↔
        u ∈ users ∧ u.id ≠ userId) := by
  constructor
  · intro h
    simp [deleteUser, h]
  · intro h
    refine ⟨by simp [deleteUser, h], ?_⟩
    intro u
    simp [deleteUser, h, List.mem_filter]

/-- C6 witness: with users 1 and 2 stored and user 1 acting, self-deletion
fails leaving the store unchanged, and deleting user 2 keeps exactly user 1. -/
theorem C6_witness :
    deleteUser [⟨1, "a", "a@x", "h1", "admin"⟩, ⟨2, "b", "b@x", "h2", "user"⟩] 1 1 =
      (DeleteUserResult.selfDeletion,
        [⟨1, "a", "a@x", "h1", "admin"⟩, ⟨2, "b", "b@x", "h2", "user"⟩]) ∧
    (deleteUser [⟨1, "a", "a@x", "h1", "admin"⟩, ⟨2, "b", "b@x", "h2", "user"⟩] 2 1).1 =
      DeleteUserResult.deleted ∧
    ((⟨2, "b", "b@x", "h2", "user"⟩ : UserRow) ∈
        (deleteUser [⟨1, "a", "a@x", "h1", "admin"⟩, ⟨2, "b", "b@x", "h2", "user"⟩] 2 1).2 ↔
      (⟨2, "b", "b@x", "h2", "user"⟩ : UserRow) ∈
          [(⟨1, "a", "a@x", "h1", "admin"⟩ : UserRow), ⟨2, "b", "b@x", "h2", "user"⟩] ∧
        (2 : Nat) ≠ 2) := by
  refine ⟨(C6_deleteUser _ 1 1).1 rfl, ((C6_deleteUser _ 2 1).2 (by decide)).1, ?_⟩
  exact ((C6_deleteUser [⟨1, "a", "a@x", "h1", "admin"⟩, ⟨2, "b", "b@x", "h2", "user"⟩]
    2 1).2 (by decide)).2 ⟨2, "b", "b@x", "h2", "user"⟩

/-- C7: registering an email that is already stored fails with DuplicateEmail
and leaves the user store unchanged; a fresh email appends exactly one row
holding the one-way hash of the password and role `user`. -/
theorem C7_register (users : List UserRow) (newId : Nat)
    (username email password : String) :
    ((∃ u ∈ users, u.email = email) →
      register users newId username email password =
        (RegisterResult.duplicateEmail, users)) ∧
    ((∀ u ∈ users, u.email ≠ email) →
      register users newId username email password =
        (RegisterResult.registered,
          users ++ [⟨newId, username, email, bcryptHash password, "user"⟩])) := by
  constructor
  · rintro ⟨u, hu, he⟩
    have hsome : (users.find? (fun v => v.email == email)).isSome := by
      cases hf : users.find? (fun v => v.email == email) with
      | none =>
        have := List.find?_eq_none.mp hf u hu
        simp [he] at this
      | some v => rfl
    simp [register, hsome]
  · intro h
    have hnone : users.find? (fun v => v.email == email) = none :=
      List.find?_eq_none.mpr (fun x hx => by simp [h x hx])
    simp [register, hnone]

/-- C7 witness: re-registering the stored email `a@x` fails and leaves the
store unchanged; registering the fresh email `b@x` appends the hashed row with
role `user`. -/
theorem C7_witness :
    register [⟨1, "a", "a@x", bcryptHash "p1", "admin"⟩] 2 "b" "a@x" "p2" =
      (RegisterResult.duplicateEmail, [⟨1, "a", "a@x", bcryptHash "p1", "admin"⟩]) ∧
    register [⟨1, "a", "a@x", bcryptHash "p1", "admin"⟩] 2 "b" "b@x" "p2" =
      (RegisterResult.registered,
        [⟨1, "a", "a@x", bcryptHash "p1", "admin"⟩,
          ⟨2, "b", "b@x", bcryptHash "p2", "user"⟩]) := by
  constructor
  · exact (C7_register [⟨1, "a", "a@x", bcryptHash "p1", "admin"⟩] 2 "b" "a@x" "p2").1
      ⟨⟨1, "a", "a@x", bcryptHash "p1", "admin"⟩, by simp, rfl⟩
  · exact (C7_register [⟨1, "a", "a@x", bcryptHash "p1", "admin"⟩] 2 "b" "b@x" "p2").2
      (by intro u hu; simp at hu; simp [hu])

theorem toggleLike_eq (likes : List Like) (userId quoteId : Nat) :
    toggleLike likes userId quoteId =
      if (⟨userId, quoteId⟩ : Like) ∈ likes then likes.erase ⟨userId, quoteId⟩
      else likes ++ [⟨userId, quoteId⟩] := by
  unfold toggleLike
  cases hf : likes.find? (fun l => l.user_id == userId && l.quote_id == quoteId) with
  | none =>
    rw [if_neg]
    intro hmem
    have := List.find?_eq_none.mp hf _ hmem
    simp at this
  | some e =>
    have hmem := List.mem_of_find?_eq_some hf
    have hpred := List.find?_some hf
    have he : e = ⟨userId, quoteId⟩ := by
      cases e
      simp only [Bool.and_eq_true, beq_iff_eq] at hpred
      simp [hpred.1, hpred.2]
    subst he
    rw [if_pos hmem]

theorem toggleLikeN_count (userId quoteId : Nat) (likes : List Like)
    (h : (⟨userId, quoteId⟩ : Like) ∉ likes) (n : Nat) :
    List.count (⟨userId, quoteId⟩ : Like) (toggleLikeN userId quoteId likes n) =
      n % 2 := by
  induction n with
  | zero =>
    show List.count _ likes = 0
    exact List.count_eq_zero.mpr h
  | succ n ih =>
    show List.count _ (toggleLike (toggleLikeN userId quoteId likes n) userId quoteId) = _
    rcases Nat.mod_two_eq_zero_or_one n with h2 | h2
    · rw [h2] at ih
      have hnm : (⟨userId, quoteId⟩ : Like) ∉ toggleLikeN userId quoteId likes n :=
        List.count_eq_zero.mp ih
      rw [toggleLike_eq, if_neg hnm, List.count_append, ih]
      simp
      omega
    · rw [h2] at ih
      have hm : (⟨userId, quoteId⟩ : Like) ∈ toggleLikeN userId quoteId likes n :=
        List.count_pos_iff.mp (by rw [ih]; exact Nat.one_pos)
      rw [toggleLike_eq, if_pos hm, List.count_erase_self, ih]
      omega

/-- C4: when the (user, quote) pair occurs at most once (the uniqueness
invariant the store enforces), toggling twice returns the like table to its
original rows up to order, and starting from an unliked state any odd number of
toggles leaves exactly one row for the pair. -/
theorem C4_toggleLike (likes : List Like) (userId quoteId : Nat) :
    (List.count (⟨userId, quoteId⟩ : Like) likes ≤ 1 →
      (toggleLike (toggleLike likes userId quoteId) userId quoteId).Perm likes) ∧
    ((⟨userId, quoteId⟩ : Like) ∉ likes → ∀ n, n % 2 = 1 →
      List.count (⟨userId, quoteId⟩ : Like)
        (toggleLikeN userId quoteId likes n) = 1) := by
  constructor
  · intro hc
    by_cases hm : (⟨userId, quoteId⟩ : Like) ∈ likes
    · have hcount1 : List.count (⟨userId, quoteId⟩ : Like) likes = 1 :=
        Nat.le_antisymm hc (List.count_pos_iff.mpr hm)
      have hzero : List.count (⟨userId, quoteId⟩ : Like)
          (likes.erase ⟨userId, quoteId⟩) = 0 := by
        rw [List.count_erase_self, hcount1]
      have hnm2 : (⟨userId, quoteId⟩ : Like) ∉ likes.erase ⟨userId, quoteId⟩ :=
        List.count_eq_zero.mp hzero
      have hinner : toggleLike likes userId quoteId = likes.erase ⟨userId, quoteId⟩ := by
        rw [toggleLike_eq, if_pos hm]
      rw [hinner, toggleLike_eq, if_neg hnm2]
      exact (List.perm_append_singleton _ _).trans (List.perm_cons_erase hm).symm
    · have hinner : toggleLike likes userId quoteId = likes ++ [⟨userId, quoteId⟩] := by
        rw [toggleLike_eq, if_neg hm]
      rw [hinner, toggleLike_eq,
        if_pos (List.mem_append_right _ (List.mem_cons_self _ _)),
        List.erase_append_right _ hm]
      simp
  · intro h n hn
    rw [toggleLikeN_count userId quoteId likes h n, hn]

/-- C4 witness: toggling twice on an empty like table restores it, and three
toggles from the unliked state leave exactly one row for the pair. -/
theorem C4_witness :
    (toggleLike (toggleLike [] 1 2) 1 2).Perm ([] : List Like) ∧
    List.count (⟨1, 2⟩ : Like) (toggleLikeN 1 2 [] 3) = 1 :=
  ⟨(C4_toggleLike [] 1 2).1 (by decide),
    (C4_toggleLike [] 1 2).2 (by decide) 3 (by decide)⟩

/-- C9: the feed returns a permutation of the quote table, each entry carrying
the number of like rows for its id, sorted ascending by creation time for
`sort=oldest` and descending for any other (or absent) sort value. -/
theorem C9_listQuotes (quotes : List QuoteRow) (likes : List Like)
    (sort : Option String) :
    ((listQuotes quotes likes sort).map QuoteView.row).Perm quotes ∧
    (∀ v ∈ listQuotes quotes likes sort,
      v.like_count = (likes.filter (fun l => l.quote_id == v.row.id)).length) ∧
    (sort = some "oldest" →
      (listQuotes quotes likes sort).Pairwise
        (fun a b => a.row.created_at ≤ b.row.created_at)) ∧
    (sort.getD "newest" ≠ "oldest" →
      (listQuotes quotes likes sort).Pairwise
        (fun a b => b.row.created_at ≤ a.row.created_at)) := by
  by_cases hs : sort.getD "newest" = "oldest"
  · refine ⟨?_, ?_, ?_, fun hcon => absurd hs hcon⟩
    · simp only [listQuotes, hs, if_pos, List.map_map]
      have : (QuoteView.row ∘ fun q => QuoteView.mk q (likeCount likes q.id)) = id := rfl
      rw [this, List.map_id]
      exact List.perm_insertionSort _ _
    · intro v hv
      simp only [listQuotes, hs, if_pos, List.mem_map] at hv
      obtain ⟨q, _, rfl⟩ := hv
      rfl
    · intro _
      simp only [listQuotes, hs, if_pos]
      rw [List.pairwise_map]
      exact List.sorted_insertionSort createdAsc quotes
  · refine ⟨?_, ?_, ?_, fun _ => ?_⟩
    · simp only [listQuotes, hs, if_neg, ite_false, List.map_map]
      have : (QuoteView.row ∘ fun q => QuoteView.mk q (likeCount likes q.id)) = id := rfl
      rw [this, List.map_id]
      exact List.perm_insertionSort _ _
    · intro v hv
      simp only [listQuotes, hs, if_neg, ite_false, List.mem_map] at hv
      obtain ⟨q, _, rfl⟩ := hv
      rfl
    · intro hsort
      rw [hsort] at hs
      simp at hs
    · simp only [listQuotes, hs, if_neg, ite_false]
      rw [List.pairwise_map]
      exact List.sorted_insertionSort createdDesc quotes

/-- C9 witness: on a two-quote store with one like, `sort=oldest` yields the
ascending order and an absent sort yields the descending order. -/
theorem C9_witness :
    ((listQuotes [⟨1, "q1".data, 10⟩, ⟨2, "q2".data, 5⟩] [⟨7, 1⟩]
        (some "oldest")).map QuoteView.row).Perm
      [⟨1, "q1".data, 10⟩, ⟨2, "q2".data, 5⟩] ∧
    (listQuotes [⟨1, "q1".data, 10⟩, ⟨2, "q2".data, 5⟩] [⟨7, 1⟩]
        (some "oldest")).Pairwise
      (fun a b => a.row.created_at ≤ b.row.created_at) ∧
    (listQuotes [⟨1, "q1".data, 10⟩, ⟨2, "q2".data, 5⟩] [⟨7, 1⟩] none).Pairwise
      (fun a b => b.row.created_at ≤ a.row.created_at) :=
  ⟨(C9_listQuotes [⟨1, "q1".data, 10⟩, ⟨2, "q2".data, 5⟩] [⟨7, 1⟩] (some "oldest")).1,
    (C9_listQuotes [⟨1, "q1".data, 10⟩, ⟨2, "q2".data, 5⟩] [⟨7, 1⟩]
      (some "oldest")).2.2.1 rfl,
    (C9_listQuotes [⟨1, "q1".data, 10⟩, ⟨2, "q2".data, 5⟩] [⟨7, 1⟩] none).2.2.2
      (by decide)⟩

/-- C10: the like toggle never checks the quote table — for a pair not yet
liked it inserts the like row even when no quote with that id exists — and
deleting a quote removes only quote rows, leaving every like row (including
those referencing the deleted quote) unchanged. -/
theorem C10_danglingLikes (s : Store) (userId quoteId : Nat) :
    ((∀ q ∈ s.quotes, q.id ≠ quoteId) → (⟨userId, quoteId⟩ : Like) ∉ s.likes →
      likeRoute s userId quoteId =
        { quotes := s.quotes, likes := s.likes ++ [⟨userId, quoteId⟩] }) ∧
    ((deleteQuoteRoute s quoteId).likes = s.likes ∧
      ∀ q, q ∈ (deleteQuoteRoute s quoteId).quotes ↔
        q ∈ s.quotes ∧ q.id ≠ quoteId) := by
  refine ⟨?_, rfl, ?_⟩
  · intro _ hnm
    unfold likeRoute
    rw [toggleLike_eq, if_neg hnm]
  · intro q
    simp [deleteQuoteRoute, List.mem_filter]

/-- C10 witness: liking quote id 9 on a store whose only quote has id 1
inserts a like row referencing the non-existent quote 9, and deleting quote 1
leaves that like row in place. -/
theorem C10_witness :
    likeRoute ⟨[⟨1, "q1".data, 10⟩], []⟩ 5 9 =
      ⟨[⟨1, "q1".data, 10⟩], [⟨5, 9⟩]⟩ ∧
    (deleteQuoteRoute ⟨[⟨1, "q1".data, 10⟩], [⟨5, 9⟩]⟩ 1).likes = [⟨5, 9⟩] :=
  ⟨(C10_danglingLikes ⟨[⟨1, "q1".data, 10⟩], []⟩ 5 9).1 (by decide) (by decide),
    (C10_danglingLikes ⟨[⟨1, "q1".data, 10⟩], [⟨5, 9⟩]⟩ 5 1).2.1⟩

theorem lineSpeakerMatches_iff (trimmedSearch line : Str) :
    lineSpeakerMatches trimmedSearch line = true ↔
      ':' ∈ line ∧
        trimmedSearch <:+:
          jsToLower (jsTrim (line.takeWhile (fun a => a ≠ ':'))) := by
  unfold lineSpeakerMatches
  by_cases h : (jsSplit ':' line).length > 1
  · rw [if_pos h, jsSplit_headD]
    have hc : ':' ∈ line := (one_lt_jsSplit_length ':' line).mp h
    simp [jsIncludes, hc]
  · rw [if_neg h]
    have hc : ':' ∉ line := fun hmem =>
      h ((one_lt_jsSplit_length ':' line).mpr hmem)
    simp [hc]

/-- C8: the speaker search matches exactly when the query is empty or the
trimmed query occurs case-insensitively inside the trimmed speaker name (the
text before the first colon) of some line of the body that contains a colon;
in particular the query `ali` matches the Alice/Bob body, and the empty query
matches every body. -/
theorem C8_matchesSpeaker (body query : Str) :
    (matchesSpeaker body query = true ↔ specSpeakerMatch body query) ∧
    matchesSpeaker body [] = true ∧
    matchesSpeaker ("Alice: hi\nBob: hey".data) ("ali".data) = true := by
  refine ⟨?_, by simp [matchesSpeaker], by decide⟩
  by_cases hq : query = []
  · subst hq
    simp [matchesSpeaker, specSpeakerMatch]
  · simp only [matchesSpeaker, if_neg hq]
    rw [List.any_eq_true]
    unfold specSpeakerMatch
    constructor
    · rintro ⟨line, hline, hmatch⟩
      exact Or.inr ⟨line, hline, (lineSpeakerMatches_iff _ line).mp hmatch⟩
    · rintro (h | ⟨line, hline, h1, h2⟩)
      · exact absurd h hq
      · exact ⟨line, hline, (lineSpeakerMatches_iff _ line).mpr ⟨h1, h2⟩⟩

/-- C8 counterexample: the code trims the query before matching, so the query
` lic ` (with surrounding spaces) matches the body `Alice: hi` even though the
raw query is not, case-insensitively, a substring of the speaker name
`Alice`. -/
theorem C8_claim_counterexample :
    matchesSpeaker ("Alice: hi".data) (" lic ".data) = true ∧
    ¬claimSpeakerMatch ("Alice: hi".data) (" lic ".data) := by
  constructor
  · decide
  · decide

/-- C1 witness: the general round trip applied to the Alice/Bob arrays. -/
theorem C1_witness :
    ∃ body, compose ["Alice".data, "Bob".data] ["hi".data, "hey".data] = some body ∧
      parse body = List.zipWith LineRec.mk ["Alice".data, "Bob".data]
        ["hi".data, "hey".data] :=
  (C1_composeParse_roundTrip ["Alice".data, "Bob".data] ["hi".data, "hey".data]
    (by decide) (by decide) (by decide) (by decide)).2
